import Mathlib

/-!
Verification development for the DHARMA FIR extraction pipeline
(`src/DHARMA2/app.py`).  The raw input text is modelled as `List Char`;
Python's `re` patterns are embedded as executable matchers over the
character list.  Character classes are the ASCII models of Python's
`\s`, `\d`, `\w`, `[A-Za-z]` (the keywords and patterns of this program
are ASCII); `str.lower()` is modelled by mapping ASCII upper-case
letters to lower-case.

`re.search` semantics are modelled by trying a match at every suffix of
the text, leftmost (longest suffix) first; `re.findall` additionally
resumes after the consumed span (advancing one character on failure or
empty match), exactly as Python's scanner does.  Where a greedy
quantifier's class overlaps the class that follows it (for example
`occupation[:\s]*([A-Za-z\s]+)`), the embedded matcher performs the
same give-back backtracking as the Python engine (`backCap`).
-/

/-- ASCII model of `str.lower()` applied to one character. -/
def lowChar (c : Char) : Char :=
  if 'A' ≤ c ∧ c ≤ 'Z' then Char.ofNat (c.toNat + 32) else c

/-- `text.lower()` on a character list. -/
def lowerList (l : List Char) : List Char := l.map lowChar

/-- Python `\s` (ASCII part). -/
def isSp (c : Char) : Bool :=
  c == ' ' || c == '\t' || c == '\n' || c == '\r' || c == '\x0b' || c == '\x0c'

/-- Python `\d` (ASCII part). -/
def isDigitCh (c : Char) : Bool := decide ('0' ≤ c ∧ c ≤ '9')

/-- `[A-Z]` without `re.I`. -/
def isUpperCh (c : Char) : Bool := decide ('A' ≤ c ∧ c ≤ 'Z')

/-- `[a-z]` without `re.I`. -/
def isLowerCh (c : Char) : Bool := decide ('a' ≤ c ∧ c ≤ 'z')

/-- `[A-Za-z]`, also `[A-Z]` under `re.I`. -/
def isAlphaCh (c : Char) : Bool := isUpperCh c || isLowerCh c

/-- `[a-zA-Z\s]` (the name-run class of the complainant/accused patterns). -/
def isAlphaSp (c : Char) : Bool := isAlphaCh c || isSp c

/-- Python `\w` (ASCII part). -/
def isWordCh (c : Char) : Bool := isAlphaCh c || isDigitCh c || c == '_'

/-- `[:\s]` (the separator class of the occupation pattern). -/
def isColonSp (c : Char) : Bool := c == ':' || isSp c

/-- `[A-Za-z\s,]` (the address class of the complainant pattern). -/
def isAddrCh (c : Char) : Bool := isAlphaCh c || isSp c || c == ','

/-- Python `str.strip()` (ASCII whitespace model). -/
def pyStrip (l : List Char) : List Char :=
  ((l.dropWhile isSp).reverse.dropWhile isSp).reverse

/-- `x in s` for strings: is `pat` a contiguous substring of `s`? -/
def hasSubstr (pat : List Char) : List Char → Bool
  | [] => pat.isEmpty
  | c :: s => pat.isPrefixOf (c :: s) || hasSubstr pat s

/-- `needle in text.lower()` where `needle` is an ASCII lower-case literal. -/
def containsCI (t : List Char) (needle : String) : Bool :=
  hasSubstr needle.data (lowerList t)

/-- Case-insensitive literal match: if the lower-cased text starts with the
(lower-case) literal `p`, return the rest of the text. -/
def ciStrip : List Char → List Char → Option (List Char)
  | [], s => some s
  | _ :: _, [] => none
  | p :: ps, c :: cs => if lowChar c = p then ciStrip ps cs else none

/-- Boolean form of `ciStrip`. -/
def ciTest (p s : List Char) : Bool := (ciStrip p s).isSome

/-- `int` on a run of ASCII digits. -/
def digitsToNat (l : List Char) : Nat :=
  l.foldl (fun n c => n * 10 + (c.toNat - 48)) 0

/-- `re.search`: try the matcher at every position of the text, leftmost
first (every suffix, longest first, ending with the empty suffix). -/
def searchAux (m : List Char → Option α) : List Char → Option α
  | [] => m []
  | c :: s =>
    match m (c :: s) with
    | some a => some a
    | none => searchAux m s

/-- `re.findall`: scan left to right; on a match consume the matched span
(at least one character; an empty match advances one position), on failure
advance one position.  The matcher returns the value and the number of
characters consumed.  The consumed span is skipped one character at a
time through the `skip` counter, so the scan is structurally recursive
on the text. -/
def findAllStep (m : List Char → Option (α × Nat)) :
    Nat → List Char → List α
  | 0, [] =>
    match m [] with
    | some (a, _) => [a]
    | none => []
  | _ + 1, [] => []
  | 0, c :: s =>
    match m (c :: s) with
    | some (a, n) => a :: findAllStep m (n - 1) s
    | none => findAllStep m 0 s
  | skip + 1, _ :: s => findAllStep m skip s

/-- `re.findall` from the start of the text. -/
def findAllAux (m : List Char → Option (α × Nat)) (t : List Char) :
    List α :=
  findAllStep m 0 t

/-- `re.search` for patterns that need to know whether the previous
character was a word character (a leading `\b`). -/
def searchPrev (m : Bool → List Char → Option α) (prev : Bool) : List Char → Option α
  | [] => m prev []
  | c :: s =>
    match m prev (c :: s) with
    | some a => some a
    | none => searchPrev m (isWordCh c) s

/-- `re.findall` for patterns with a leading `\b`: like `findAllStep`
but tracking whether the previous character was a word character, which
is updated for every character passed over (skipped or failed). -/
def findAllPrevStep (m : Bool → List Char → Option (α × Nat)) :
    Nat → Bool → List Char → List α
  | 0, prev, [] =>
    match m prev [] with
    | some (a, _) => [a]
    | none => []
  | _ + 1, _, [] => []
  | 0, prev, c :: s =>
    match m prev (c :: s) with
    | some (a, n) => a :: findAllPrevStep m (n - 1) (isWordCh c) s
    | none => findAllPrevStep m 0 (isWordCh c) s
  | skip + 1, _, c :: s => findAllPrevStep m skip (isWordCh c) s

/-- `re.findall` with `\b` left context from the start of the text. -/
def findAllPrev (m : Bool → List Char → Option (α × Nat)) (prev : Bool)
    (t : List Char) : List α :=
  findAllPrevStep m 0 prev t

/-- Try a greedy capture `(cap)+` starting after exactly `k` skipped
characters: succeeds if the character at offset `k` is in the class, and
captures the maximal run from there. -/
def capAt (cap : Char → Bool) (s : List Char) (k : Nat) :
    Option (List Char × List Char) :=
  match s.drop k with
  | [] => none
  | d :: r =>
    if cap d then
      let more := r.takeWhile cap
      some (d :: more, r.drop more.length)
    else none

/-- Backtracking for `sep{min,}` followed by a greedy capture `(cap)+` at
the end of a pattern, when the two classes may overlap: the Python engine
first lets the separator run be as long as possible (`k` characters) and
gives characters back one at a time until the capture can match.  Returns
the capture and the rest of the text. -/
def backCap (cap : Char → Bool) (s : List Char) (min : Nat) :
    Nat → Option (List Char × List Char)
  | 0 => if min = 0 then capAt cap s 0 else none
  | k + 1 =>
    if k + 1 < min then none
    else
      match capAt cap s (k + 1) with
      | some x => some x
      | none => backCap cap s min k

/-- `complainant\s+([A-Z][a-zA-Z\s]+)` and `S/o\s+([A-Z][a-zA-Z\s]+)`
(`re.I`), attempted at one position: the (lower-case) cue, one or more
whitespace characters, then the greedy capture of a letter followed by at
least one more letter-or-space.  Returns the raw capture. -/
def matchCueName (cue : String) (s : List Char) : Option (List Char) :=
  match ciStrip cue.data s with
  | none => none
  | some r1 =>
    let ws := r1.takeWhile isSp
    if ws.isEmpty then none
    else
      match r1.drop ws.length with
      | [] => none
      | c :: r3 =>
        if isAlphaCh c then
          let run := r3.takeWhile isAlphaSp
          if run.isEmpty then none else some (c :: run)
        else none

/-- `aged\s+(\d+)` (`re.I`) at one position; returns the digit span. -/
def matchAgedAt (s : List Char) : Option (List Char) :=
  match ciStrip "aged".data s with
  | none => none
  | some r1 =>
    let ws := r1.takeWhile isSp
    if ws.isEmpty then none
    else
      let ds := (r1.drop ws.length).takeWhile isDigitCh
      if ds.isEmpty then none else some ds

/-- One alternative `w1\s+w2` of the community pattern (`re.I`); returns
the original-case matched span. -/
def casteAlt (w1 w2 : String) (s : List Char) : Option (List Char) :=
  match ciStrip w1.data s with
  | none => none
  | some r =>
    let ws := r.takeWhile isSp
    if ws.isEmpty then none
    else if ciTest w2.data (r.drop ws.length) then
      some (s.take (w1.length + ws.length + w2.length))
    else none

/-- `(Scheduled\s+Caste|Scheduled\s+Tribe|Backward\s+Class)` (`re.I`) at
one position, alternatives tried in order. -/
def matchCasteAt (s : List Char) : Option (List Char) :=
  match casteAlt "scheduled" "caste" s with
  | some x => some x
  | none =>
    match casteAlt "scheduled" "tribe" s with
    | some x => some x
    | none => casteAlt "backward" "class" s

/-- `occupation[:\s]*([A-Za-z\s]+)` (`re.I`) at one position. -/
def matchOccAt (s : List Char) : Option (List Char) :=
  match ciStrip "occupation".data s with
  | none => none
  | some r =>
    (backCap isAlphaSp r 0 ((r.takeWhile isColonSp).length)).map Prod.fst

/-- `resident\s+of\s+([A-Za-z\s,]+)` (`re.I`) at one position. -/
def matchAddrAt (s : List Char) : Option (List Char) :=
  match ciStrip "resident".data s with
  | none => none
  | some r1 =>
    let ws := r1.takeWhile isSp
    if ws.isEmpty then none
    else
      match ciStrip "of".data (r1.drop ws.length) with
      | none => none
      | some r2 =>
        (backCap isAddrCh r2 1 ((r2.takeWhile isSp).length)).map Prod.fst

/-- The complainant record: a Python dict with optional keys. -/
structure ComplainantInfo where
  name : Option (List Char)
  father : Option (List Char)
  age : Option Nat
  community : Option (List Char)
  occupation : Option (List Char)
  address : Option (List Char)
deriving DecidableEq

/-- `extract_complainant_info`. -/
def extract_complainant_info (t : List Char) : ComplainantInfo :=
  { name := (searchAux (matchCueName "complainant") t).map pyStrip
    father := (searchAux (matchCueName "s/o") t).map pyStrip
    age := (searchAux matchAgedAt t).map digitsToNat
    community := (searchAux matchCasteAt t).map pyStrip
    occupation := (searchAux matchOccAt t).map pyStrip
    address := (searchAux matchAddrAt t).map pyStrip }

/-- The optional `(?:S/o\s*([A-Za-z\s]+))?` of the accused pattern, tried
at one position (the lazy gaps before it match empty).  Returns the raw
capture and the rest. -/
def trySo (s : List Char) : Option (List Char × List Char) :=
  match ciStrip "s/o".data s with
  | none => none
  | some r => backCap isAlphaSp r 0 ((r.takeWhile isSp).length)

/-- The optional `(?:resident\s*of\s*([A-Za-z\s]+))?` of the accused
pattern, tried at one position. -/
def tryResident (s : List Char) : Option (List Char × List Char) :=
  match ciStrip "resident".data s with
  | none => none
  | some r1 =>
    match ciStrip "of".data (r1.drop (r1.takeWhile isSp).length) with
    | none => none
    | some r2 => backCap isAlphaSp r2 0 ((r2.takeWhile isSp).length)

/-- One accused entry: `{"Name", "Age"}` from the named pattern, optional
`"Relation"`/`"Address"`, and `{"Name": "Unknown", "Description"}` for
the sentinel. -/
structure AccusedEntry where
  name : List Char
  age : Option Nat := none
  relation : Option (List Char) := none
  address : Option (List Char) := none
  description : Option (List Char) := none
deriving DecidableEq

/-- One attempt of the accused `findall` pattern
`([A-Z][a-zA-Z\s]+),\s*aged\s*about\s*(\d+).*?(?:S/o\s*([A-Za-z\s]+))?.*?(?:resident\s*of\s*([A-Za-z\s]+))?.*?(?:history-sheeter)?`
(`re.I`).  Every element after `(\d+)` is lazy or optional, so the match
ends right after the digits unless an optional sub-pattern matches at the
current position.  Builds the entry exactly as the Python loop does
(`Name` stripped, `Relation` formatted as `"S/o " + strip`, `Address`
stripped); returns the entry and the consumed length. -/
def matchAccusedAt (s : List Char) : Option (AccusedEntry × Nat) :=
  match s with
  | [] => none
  | c :: r =>
    if isAlphaCh c then
      let run := r.takeWhile isAlphaSp
      if run.isEmpty then none
      else
        match r.drop run.length with
        | [] => none
        | d :: r2 =>
          if d = ',' then
          match ciStrip "aged".data (r2.dropWhile isSp) with
          | none => none
          | some r4 =>
            match ciStrip "about".data (r4.dropWhile isSp) with
            | none => none
            | some r6 =>
              let r7 := r6.dropWhile isSp
              let ds := r7.takeWhile isDigitCh
              if ds.isEmpty then none
              else
                let r8 := r7.drop ds.length
                let step1 : Option (List Char) × List Char :=
                  match trySo r8 with
                  | some (cap, rest) => (some cap, rest)
                  | none => (none, r8)
                let step2 : Option (List Char) × List Char :=
                  match tryResident step1.2 with
                  | some (cap, rest) => (some cap, rest)
                  | none => (none, step1.2)
                let r11 :=
                  match ciStrip "history-sheeter".data step2.2 with
                  | some rest => rest
                  | none => step2.2
                some ({ name := pyStrip (c :: run)
                        age := some (digitsToNat ds)
                        relation := step1.1.map
                          (fun cap => "S/o ".data ++ pyStrip cap)
                        address := step2.1.map pyStrip
                        description := none },
                      s.length - r11.length)
          else none
    else none

/-- `"unknown" in text.lower()`. -/
def hasUnknown (t : List Char) : Bool := containsCI t "unknown"

/-- One physical-description alternative: if the (lower-case) literal
matches case-insensitively at this position, return the original-case
span of its length. -/
def tryCue (cue : String) (s : List Char) : Option (List Char) :=
  if ciTest cue.data s then some (s.take cue.length) else none

/-- The four physical-description alternatives tried in order at one
position; returns the original-case span. -/
def cueHere (s : List Char) : Option (List Char) :=
  match tryCue "medium build" s with
  | some sp => some sp
  | none =>
    match tryCue "black shirt" s with
    | some sp => some sp
    | none =>
      match tryCue "fair" s with
      | some sp => some sp
      | none => tryCue "dark" s

/-- The lazy scan `.*?(medium build|black shirt|fair|dark)` (`re.I`, no
DOTALL: `.` does not cross a newline): shortest expansion first, at each
point the alternatives tried in order.  Returns the original-case span. -/
def findCue : List Char → Option (List Char)
  | [] => cueHere []
  | c :: r =>
    match cueHere (c :: r) with
    | some sp => some sp
    | none => if c = '\n' then none else findCue r

/-- `unknown person.*?(medium build|black shirt|fair|dark)` (`re.I`) at
one position. -/
def matchUnknownAt (s : List Char) : Option (List Char) :=
  match ciStrip "unknown person".data s with
  | none => none
  | some r => findCue r

/-- The named-pattern part of `extract_accused_info` (the `findall` loop). -/
def accusedBase (t : List Char) : List AccusedEntry :=
  findAllAux matchAccusedAt t

/-- `extract_accused_info`. -/
def extract_accused_info (t : List Char) : List AccusedEntry :=
  accusedBase t ++
    (if hasUnknown t then
      [{ name := "Unknown".data
         description := some (match searchAux matchUnknownAt t with
                              | some sp => sp
                              | none => "Unknown description".data) }]
    else [])

/-- Shape test for `AP-\d{2}-[A-Z]{2}-\d{4}` (case-sensitive, 13 chars). -/
def vehShape (l : List Char) : Bool :=
  match l with
  | ['A', 'P', '-', a, b, '-', c, d, '-', e, f, g, h] =>
    isDigitCh a && isDigitCh b && isUpperCh c && isUpperCh d &&
    isDigitCh e && isDigitCh f && isDigitCh g && isDigitCh h
  | _ => false

/-- The vehicle pattern at one position. -/
def matchVehicleAt (s : List Char) : Option (List Char × Nat) :=
  if vehShape (s.take 13) then some (s.take 13, 13) else none

/-- `extract_vehicles`. -/
def extract_vehicles (t : List Char) : List (List Char) :=
  findAllAux matchVehicleAt t

/-- `extract_weapons`. -/
def extract_weapons (t : List Char) : List String :=
  (if containsCI t "pistol" then ["Country-made pistol"] else []) ++
  (if containsCI t "stick" then ["Stick"] else [])

/-- `extract_offences`. -/
def extract_offences (t : List Char) : List String :=
  (if containsCI t "caste" || containsCI t "mala" then ["Caste abuse"] else []) ++
  (if containsCI t "pistol" || containsCI t "fire" then ["Threat with firearm"] else []) ++
  (if containsCI t "snatched" || containsCI t "cash" then ["Robbery"] else []) ++
  (if containsCI t "injury" || containsCI t "bleeding" then ["Assault causing injury"] else [])

/-- The lazy scan `.*?₹\d+` of the Samsung branch (`.` stops at a
newline; a `₹` without a following digit is passed over).  Returns the
number of characters consumed. -/
def findRupee : List Char → Option Nat
  | [] => none
  | '₹' :: r =>
    let ds := r.takeWhile isDigitCh
    if ds.isEmpty then (findRupee r).map (· + 1) else some (1 + ds.length)
  | c :: r => if c = '\n' then none else (findRupee r).map (· + 1)

/-- Branch `Samsung.*?₹\d+` (`re.I`) at one position. -/
def propBranch1 (s : List Char) : Option (List Char × Nat) :=
  match ciStrip "samsung".data s with
  | none => none
  | some r => (findRupee r).map (fun used => (s.take (7 + used), 7 + used))

/-- Branch `\bcash\s*₹?\d+` (`re.I`) at one position (`prevWord` is the
left context for `\b`). -/
def propBranch2 (prevWord : Bool) (s : List Char) : Option (List Char × Nat) :=
  if prevWord then none
  else
    match ciStrip "cash".data s with
    | none => none
    | some r1 =>
      let r2 := r1.drop (r1.takeWhile isSp).length
      let r3 := match r2 with
                | '₹' :: r => r
                | _ => r2
      let ds := r3.takeWhile isDigitCh
      if ds.isEmpty then none
      else
        let consumed := s.length - (r3.drop ds.length).length
        some (s.take consumed, consumed)

/-- `(Samsung.*?₹\d+|\bcash\s*₹?\d+)` at one position, first branch
preferred. -/
def matchPropAt (prevWord : Bool) (s : List Char) : Option (List Char × Nat) :=
  match propBranch1 s with
  | some x => some x
  | none => propBranch2 prevWord s

/-- `extract_property_loss`. -/
def extract_property_loss (t : List Char) : List (List Char) :=
  findAllPrev matchPropAt false t

/-- `extract_threats`. -/
def extract_threats (t : List Char) : List String :=
  (if containsCI t "kill" then ["Kill him"] else []) ++
  (if containsCI t "fire" || containsCI t "burn" then ["Set fire to his hut"] else [])

/-- The lookahead `(?=,|\s+and)` of the witness pattern (case-sensitive). -/
def lookaheadComma (s : List Char) : Bool :=
  match s with
  | ',' :: _ => true
  | _ =>
    let ws := s.takeWhile isSp
    !ws.isEmpty && "and".data.isPrefixOf (s.drop ws.length)

/-- `\b([A-Z][a-z]+)\b(?=,|\s+and)` (case-sensitive) at one position. -/
def matchWitnessAt (prevWord : Bool) (s : List Char) : Option (List Char × Nat) :=
  if prevWord then none
  else
    match s with
    | [] => none
    | c :: r =>
      if isUpperCh c then
        let run := r.takeWhile isLowerCh
        if run.isEmpty then none
        else
          let rest := r.drop run.length
          if (match rest.head? with
              | some d => !isWordCh d
              | none => true) && lookaheadComma rest then
            some (c :: run, 1 + run.length)
          else none
      else none

/-- The stoplist of the witness extractor. -/
def stoplist : List (List Char) :=
  ["Rajesh".data, "Rao".data, "Babu".data, "Krishna".data]

/-- `extract_witnesses`. -/
def extract_witnesses (t : List Char) : List (List Char) :=
  (findAllPrev matchWitnessAt false t).filter (fun w => !stoplist.contains w)

/-- `\d{1,2}` greedy: the candidate digit spans (two digits preferred)
with the rest of the text. -/
def digitCands (s : List Char) : List (List Char × List Char) :=
  match s with
  | c :: d :: r =>
    if isDigitCh c then
      if isDigitCh d then [([c, d], r), ([c], d :: r)] else [([c], d :: r)]
    else []
  | [c] => if isDigitCh c then [([c], [])] else []
  | [] => []

/-- `(?:th|st|nd|rd)?` greedy (`re.I`): rests after each matching suffix
(in alternation order), then the no-suffix choice. -/
def ordCands (s : List Char) : List (List Char) :=
  (["th", "st", "nd", "rd"].filterMap
    (fun o => if ciTest o.data s then some (s.drop 2) else none)) ++ [s]

/-- `\d{1,2}(?:th|st|nd|rd)?\s+\w+\s+\d{4}` (the date group, `re.I`) at
one position: all consumed lengths that complete the group, in the
backtracking order the Python engine explores. -/
def matchDT1 (s : List Char) : List Nat :=
  (digitCands s).flatMap (fun p =>
    (ordCands p.2).filterMap (fun r2 =>
      let w1 := r2.takeWhile isSp
      if w1.isEmpty then none
      else
        let r3 := r2.drop w1.length
        let wd := r3.takeWhile isWordCh
        if wd.isEmpty then none
        else
          let r4 := r3.drop wd.length
          let w2 := r4.takeWhile isSp
          if w2.isEmpty then none
          else
            let r5 := r4.drop w2.length
            if ((r5.take 4).all isDigitCh) && (r5.take 4).length == 4 then
              some (s.length - (r5.drop 4).length)
            else none))

/-- `\d{1,2}[:.]\d+\s*[AP]M` (the time group, `re.I`) at one position;
returns the consumed length. -/
def matchTime (s : List Char) : Option Nat :=
  (digitCands s).findSome? (fun p =>
    match p.2 with
    | c :: r2 =>
      if c = ':' ∨ c = '.' then
        let ds := r2.takeWhile isDigitCh
        if ds.isEmpty then none
        else
          let r3 := r2.drop ds.length
          let r4 := r3.drop (r3.takeWhile isSp).length
          match r4 with
          | a :: m :: r5 =>
            if (lowChar a = 'a' ∨ lowChar a = 'p') ∧ lowChar m = 'm' then
              some (s.length - r5.length)
            else none
          | _ => none
      else none
    | [] => none)

/-- The lazy gap `.*?` before the time group (stops at a newline):
earliest offset at which the time group matches, with its length. -/
def findTime : List Char → Option (Nat × Nat)
  | [] => (matchTime []).map (fun n => (0, n))
  | c :: r =>
    match matchTime (c :: r) with
    | some n => some (0, n)
    | none =>
      if c = '\n' then none
      else (findTime r).map (fun p => (p.1 + 1, p.2))

/-- The whole date-time pattern at one position: the first date-group
parse that has a time-group continuation wins; returns the two original
spans. -/
def matchDTAt (s : List Char) : Option (List Char × List Char) :=
  (matchDT1 s).findSome? (fun g1 =>
    (findTime (s.drop g1)).map (fun p =>
      (s.take g1, ((s.drop g1).drop p.1).take p.2)))

/-- `extract_datetime`: `f"{m.group(1)}, {m.group(2)}"` on a match, else
the empty string. -/
def extract_datetime (t : List Char) : List Char :=
  match searchAux matchDTAt t with
  | some p => p.1 ++ ", ".data ++ p.2
  | none => []

/-- The capture tail `([A-Za-z\s]+culvert)` after the whitespace: try the
greedy run length `m` downward (at least one character) until the literal
`culvert` (`re.I`) follows; the group is the run plus the 7-character
culvert span. -/
def placeRun (s : List Char) : Nat → Option (List Char)
  | 0 => none
  | m + 1 =>
    if ciTest "culvert".data (s.drop (m + 1)) then
      some (s.take (m + 1) ++ (s.drop (m + 1)).take 7)
    else placeRun s m

/-- The `\s+` of the place pattern: try the whitespace run length `k`
downward (at least one character); for each, try the capture tail. -/
def placeWs (s : List Char) : Nat → Option (List Char)
  | 0 => none
  | k + 1 =>
    match (placeRun (s.drop (k + 1))
            (((s.drop (k + 1)).takeWhile isAlphaSp).length)) with
    | some g => some g
    | none => placeWs s k

/-- `near\s+([A-Za-z\s]+culvert)` (`re.I`) at one position. -/
def matchPlaceAt (s : List Char) : Option (List Char) :=
  match ciStrip "near".data s with
  | none => none
  | some r => placeWs r ((r.takeWhile isSp).length)

/-- `extract_place`. -/
def extract_place (t : List Char) : List Char :=
  match searchAux matchPlaceAt t with
  | some g => pyStrip g
  | none => "Not mentioned".data

/-- The flat record assembled by `extract_all` before the legal mapping
is attached. -/
structure FIRData where
  complainant : ComplainantInfo
  dateTime : List Char
  place : List Char
  accused : List AccusedEntry
  vehicles : List (List Char)
  weaponsUsed : List String
  offences : List String
  propertyLoss : List (List Char)
  threats : List String
  witnesses : List (List Char)
  impact : List Char
deriving DecidableEq

/-- `" ".join(offences)`. -/
def joinSp : List String → List Char
  | [] => []
  | [x] => x.data
  | x :: y :: r => x.data ++ (' ' :: joinSp (y :: r))

/-- The `BNS 2023` section list built by `map_legal_sections` (appends in
source order). -/
def bnsSections (o : List String) : List String :=
  (if "Robbery" ∈ o then ["Sec. 309 – Robbery"] else []) ++
  (if "Assault causing injury" ∈ o then ["Sec. 115 – Hurt"] else []) ++
  (if o.any (fun x => hasSubstr "Threat".data x.data) then
    ["Sec. 351 – Criminal intimidation"] else [])

/-- The `SC/ST Act 1989` section list built by `map_legal_sections`. -/
def scstSections (o : List String) : List String :=
  if "Caste abuse" ∈ o then
    ["Sec. 3(1)(r) – Intentional insult/abuse by caste name",
     "Sec. 3(2)(v) – Offence committed on ground of caste"]
  else []

/-- The `Arms Act 1959` section list built by `map_legal_sections`. -/
def armsSections (o : List String) : List String :=
  if hasSubstr "firearm".data (joinSp o) || hasSubstr "pistol".data (joinSp o) then
    ["Sec. 25 – Possession/use of illegal arms",
     "Sec. 27 – Use of firearm in commission of offence"]
  else []

/-- `map_legal_sections`: builds the three lists in fixed insertion
order, reading only `info["Offences"]`, and drops the codes whose list is
empty (`{k: v for k, v in mapping.items() if v}`). -/
def map_legal_sections (info : FIRData) : List (String × List String) :=
  [("BNS 2023", bnsSections info.offences),
   ("SC/ST Act 1989", scstSections info.offences),
   ("Arms Act 1959", armsSections info.offences)].filter
    (fun p => !p.2.isEmpty)

/-- The full output record. -/
structure ExtractionRecord extends FIRData where
  legalMapping : List (String × List String)
deriving DecidableEq

/-- `extract_all`. -/
def extract_all (t : List Char) : ExtractionRecord :=
  let d : FIRData :=
    { complainant := extract_complainant_info t
      dateTime := extract_datetime t
      place := extract_place t
      accused := extract_accused_info t
      vehicles := extract_vehicles t
      weaponsUsed := extract_weapons t
      offences := extract_offences t
      propertyLoss := extract_property_loss t
      threats := extract_threats t
      witnesses := extract_witnesses t
      impact := if containsCI t "hospital" then
          "Fear, public fled, complainant hospitalized".data
        else [] }
  { toFIRData := d, legalMapping := map_legal_sections d }

/-- The date portion `\d{1,2}(?:th|st|nd|rd)?\s+\w+\s+\d{4}` of the
date-time pattern searched on its own (leftmost position at which the
date group alone completes); used to state that a date-only match yields
no partial result. -/
def searchDateOnly (t : List Char) : Option Nat :=
  searchAux (fun s => (matchDT1 s).head?) t

/-- The name sub-pattern as the specification words it (a *non-greedy*
capture `[A-Z][a-zA-Z\s]+?` at the end of the pattern): the lazy `+?`
matches the minimal run, i.e. the leading letter plus exactly one more
letter-or-space character.  This is the specification's variant, to be
compared with the source's greedy `matchCueName`. -/
def specMatchNGName (s : List Char) : Option (List Char) :=
  match ciStrip "complainant".data s with
  | none => none
  | some r1 =>
    let ws := r1.takeWhile isSp
    if ws.isEmpty then none
    else
      match r1.drop ws.length with
      | [] => none
      | c :: r3 =>
        if isAlphaCh c then
          match r3 with
          | [] => none
          | d :: _ => if isAlphaSp d then some [c, d] else none
        else none

/-- The complainant Name field as the specification describes it
(first match wins, non-greedy capture, stripped). -/
def specNonGreedyName (t : List Char) : Option (List Char) :=
  (searchAux specMatchNGName t).map pyStrip

/-! ## Helper lemmas -/

/-- `l` is a suffix of `t`. -/
def SufOf (l t : List Char) : Prop := ∃ pre, pre ++ l = t

theorem sufOf_refl (t : List Char) : SufOf t t := ⟨[], rfl⟩

theorem sufOf_trans {a b c : List Char} (h1 : SufOf a b) (h2 : SufOf b c) :
    SufOf a c := by
  obtain ⟨p, hp⟩ := h1; obtain ⟨q, hq⟩ := h2
  exact ⟨q ++ p, by rw [List.append_assoc, hp, hq]⟩

theorem sufOf_drop (l : List Char) (k : Nat) : SufOf (l.drop k) l :=
  ⟨l.take k, List.take_append_drop k l⟩

theorem sufOf_tail (c : Char) (l : List Char) : SufOf l (c :: l) := ⟨[c], rfl⟩

theorem pfx_self_append (p b : List Char) : p.isPrefixOf (p ++ b) = true := by
  induction p with
  | nil => simp [List.isPrefixOf]
  | cons x xs ih => simp [List.isPrefixOf, ih]

theorem pfx_exists {p l : List Char} (h : p.isPrefixOf l = true) :
    ∃ b, l = p ++ b := by
  induction p generalizing l with
  | nil => exact ⟨l, rfl⟩
  | cons x xs ih =>
    cases l with
    | nil => simp [List.isPrefixOf] at h
    | cons c cs =>
      simp only [List.isPrefixOf, Bool.and_eq_true, beq_iff_eq] at h
      obtain ⟨b, hb⟩ := ih h.2
      exact ⟨b, by simp [h.1, hb]⟩

theorem hasSubstr_parts (p a b : List Char) :
    hasSubstr p (a ++ p ++ b) = true := by
  induction a with
  | nil =>
    cases hp : p ++ b with
    | nil =>
      have hpn : p = [] := by
        cases p with
        | nil => rfl
        | cons x xs => simp at hp
      have hbn : b = [] := by
        rw [hpn] at hp; simpa using hp
      simp [hpn, hbn, hasSubstr]
    | cons c cs =>
      simp only [List.nil_append]
      rw [hp]
      simp only [hasSubstr, Bool.or_eq_true]
      refine Or.inl ?_
      rw [← hp]
      exact pfx_self_append p b
  | cons c a ih =>
    have : hasSubstr p (c :: (a ++ p ++ b)) = true := by
      simp only [hasSubstr, Bool.or_eq_true]
      exact Or.inr ih
    simpa using this

theorem hasSubstr_exists {p l : List Char} (h : hasSubstr p l = true) :
    ∃ a b, l = a ++ p ++ b := by
  induction l with
  | nil =>
    simp [hasSubstr, List.isEmpty_iff] at h
    exact ⟨[], [], by simp [h]⟩
  | cons c s ih =>
    simp only [hasSubstr, Bool.or_eq_true] at h
    cases h with
    | inl h =>
      obtain ⟨b, hb⟩ := pfx_exists h
      exact ⟨[], b, by simp [hb]⟩
    | inr h =>
      obtain ⟨a, b, hab⟩ := ih h
      exact ⟨c :: a, b, by simp [hab]⟩

theorem ciStrip_exists {p s r : List Char} (h : ciStrip p s = some r) :
    ∃ q, s = q ++ r ∧ lowerList q = p := by
  induction p generalizing s with
  | nil =>
    simp only [ciStrip, Option.some.injEq] at h
    exact ⟨[], by simp [h, lowerList]⟩
  | cons x xs ih =>
    cases s with
    | nil => simp [ciStrip] at h
    | cons c cs =>
      simp only [ciStrip] at h
      split at h
      · next heq =>
        obtain ⟨q, hq, hl⟩ := ih h
        exact ⟨c :: q, by simp [hq], by simp [lowerList] at hl ⊢; exact ⟨heq, hl⟩⟩
      · exact absurd h (by simp)

theorem all_tw (p : Char → Bool) (l : List Char) :
    ∀ c ∈ l.takeWhile p, p c = true := by
  induction l with
  | nil => simp [List.takeWhile]
  | cons x xs ih =>
    simp only [List.takeWhile]
    cases h : p x with
    | false => simp
    | true => simpa [h] using ih

theorem searchAux_none_all {α : Type} {m : List Char → Option α} :
    ∀ {t : List Char}, searchAux m t = none → ∀ s, SufOf s t → m s = none := by
  intro t
  induction t with
  | nil =>
    intro h s hs
    obtain ⟨pre, hp⟩ := hs
    have : pre = [] ∧ s = [] := by
      constructor
      · cases pre with
        | nil => rfl
        | cons a b => simp at hp
      · cases pre with
        | nil => simpa using hp
        | cons a b => simp at hp
    rw [this.2]; simpa [searchAux] using h
  | cons c t ih =>
    intro h s hs
    have hm : m (c :: t) = none := by
      by_contra hne
      cases hx : m (c :: t) with
      | none => exact hne hx
      | some a => simp [searchAux, hx] at h
    have hrec : searchAux m t = none := by
      simpa [searchAux, hm] using h
    obtain ⟨pre, hp⟩ := hs
    cases pre with
    | nil => simpa [← hp] using hm
    | cons x xs =>
      have hxs : xs ++ s = t := by
        have h2 := hp
        simp only [List.cons_append, List.cons.injEq] at h2
        exact h2.2
      exact ih hrec s ⟨xs, hxs⟩

theorem searchAux_eq_some {α : Type} {m : List Char → Option α} :
    ∀ {t : List Char} {v : α}, searchAux m t = some v →
      ∃ s, SufOf s t ∧ m s = some v ∧
        ∀ u, SufOf u t → s.length < u.length → m u = none := by
  intro t
  induction t with
  | nil =>
    intro v h
    refine ⟨[], sufOf_refl [], by simpa [searchAux] using h, ?_⟩
    intro u hu hlen
    obtain ⟨pre, hp⟩ := hu
    have hu0 : pre.length + u.length = 0 := by
      have := congrArg List.length hp
      simpa [List.length_append] using this
    simp at hlen
    omega
  | cons c t ih =>
    intro v h
    cases hm : m (c :: t) with
    | some a =>
      have hv : a = v := by simpa [searchAux, hm] using h
      refine ⟨c :: t, sufOf_refl _, by rw [hm, hv], ?_⟩
      intro u hu hlen
      obtain ⟨pre, hp⟩ := hu
      have hl : pre.length + u.length = t.length + 1 := by
        have := congrArg List.length hp
        simpa [List.length_append] using this
      simp [List.length_cons] at hlen
      omega
    | none =>
      have hrec : searchAux m t = some v := by simpa [searchAux, hm] using h
      obtain ⟨s, hs, hms, hleft⟩ := ih hrec
      refine ⟨s, sufOf_trans hs (sufOf_tail c t), hms, ?_⟩
      intro u hu hlen
      obtain ⟨pre, hp⟩ := hu
      cases pre with
      | nil => simpa [← hp] using hm
      | cons x xs =>
        have hxs : xs ++ u = t := by
          have h2 := hp
          simp only [List.cons_append, List.cons.injEq] at h2
          exact h2.2
        exact hleft u ⟨xs, hxs⟩ hlen

theorem findAllStep_nil_of_search_none {α : Type}
    {m : List Char → Option (α × Nat)} :
    ∀ {t : List Char}, searchAux m t = none → findAllStep m 0 t = [] := by
  intro t
  induction t with
  | nil =>
    intro h
    simp only [searchAux] at h
    simp [findAllStep, h]
  | cons c t ih =>
    intro h
    have hm : m (c :: t) = none := by
      cases hx : m (c :: t) with
      | none => rfl
      | some a => simp [searchAux, hx] at h
    have hrec : searchAux m t = none := by simpa [searchAux, hm] using h
    simp [findAllStep, hm, ih hrec]

theorem findAllAux_nil_of_search_none {α : Type}
    {m : List Char → Option (α × Nat)} {t : List Char}
    (h : searchAux m t = none) : findAllAux m t = [] := by
  simpa [findAllAux] using findAllStep_nil_of_search_none h

theorem findAllPrevStep_nil_of_search_none {α : Type}
    {m : Bool → List Char → Option (α × Nat)} :
    ∀ {t : List Char} {prev : Bool},
      searchPrev m prev t = none → findAllPrevStep m 0 prev t = [] := by
  intro t
  induction t with
  | nil =>
    intro prev h
    simp only [searchPrev] at h
    simp [findAllPrevStep, h]
  | cons c t ih =>
    intro prev h
    have hm : m prev (c :: t) = none := by
      cases hx : m prev (c :: t) with
      | none => rfl
      | some a => simp [searchPrev, hx] at h
    have hrec : searchPrev m (isWordCh c) t = none := by
      simpa [searchPrev, hm] using h
    simp [findAllPrevStep, hm, ih hrec]

theorem findAllPrev_nil_of_search_none {α : Type}
    {m : Bool → List Char → Option (α × Nat)} {t : List Char} {prev : Bool}
    (h : searchPrev m prev t = none) : findAllPrev m prev t = [] := by
  simpa [findAllPrev] using findAllPrevStep_nil_of_search_none h

theorem mls_offences_only (d1 d2 : FIRData) (h : d1.offences = d2.offences) :
    map_legal_sections d1 = map_legal_sections d2 := by
  simp only [map_legal_sections, h]

theorem mls_nil (d : FIRData) (h : d.offences = []) :
    map_legal_sections d = [] := by
  simp only [map_legal_sections, h]
  rfl

/-! ## Claims -/

/-- C1: for every input text, the pipeline terminates (it is a total
function) and every field of the returned record carries its well-defined
default when its pattern does not match: all-`none` Complainant, empty
string DateTime, `"Not mentioned"` Place, empty Accused, Vehicles,
WeaponsUsed, Offences, PropertyLoss, Threats and Witnesses lists, empty
Impact, and an empty LegalMapping when no offence was detected. -/
theorem extract_all_defaults (t : List Char) :
    (searchAux (matchCueName "complainant") t = none →
     searchAux (matchCueName "s/o") t = none →
     searchAux matchAgedAt t = none →
     searchAux matchCasteAt t = none →
     searchAux matchOccAt t = none →
     searchAux matchAddrAt t = none →
      (extract_all t).complainant = ⟨none, none, none, none, none, none⟩) ∧
    (searchAux matchDTAt t = none → (extract_all t).dateTime = []) ∧
    (searchAux matchPlaceAt t = none →
      (extract_all t).place = "Not mentioned".data) ∧
    (searchAux matchAccusedAt t = none → hasUnknown t = false →
      (extract_all t).accused = []) ∧
    (searchAux matchVehicleAt t = none → (extract_all t).vehicles = []) ∧
    (containsCI t "pistol" = false → containsCI t "stick" = false →
      (extract_all t).weaponsUsed = []) ∧
    (containsCI t "caste" = false → containsCI t "mala" = false →
     containsCI t "pistol" = false → containsCI t "fire" = false →
     containsCI t "snatched" = false → containsCI t "cash" = false →
     containsCI t "injury" = false → containsCI t "bleeding" = false →
      (extract_all t).offences = []) ∧
    (searchPrev matchPropAt false t = none →
      (extract_all t).propertyLoss = []) ∧
    (containsCI t "kill" = false → containsCI t "fire" = false →
     containsCI t "burn" = false → (extract_all t).threats = []) ∧
    (searchPrev matchWitnessAt false t = none →
      (extract_all t).witnesses = []) ∧
    (containsCI t "hospital" = false → (extract_all t).impact = []) ∧
    ((extract_all t).offences = [] → (extract_all t).legalMapping = []) := by
  refine ⟨?_, ?_, ?_, ?_, ?_, ?_, ?_, ?_, ?_, ?_, ?_, ?_⟩
  · intro h1 h2 h3 h4 h5 h6
    simp [extract_all, extract_complainant_info, h1, h2, h3, h4, h5, h6]
  · intro h
    simp [extract_all, extract_datetime, h]
  · intro h
    simp [extract_all, extract_place, h]
  · intro h1 h2
    simp [extract_all, extract_accused_info, accusedBase,
      findAllAux_nil_of_search_none h1, h2]
  · intro h
    simp [extract_all, extract_vehicles, findAllAux_nil_of_search_none h]
  · intro h1 h2
    simp [extract_all, extract_weapons, h1, h2]
  · intro h1 h2 h3 h4 h5 h6 h7 h8
    simp [extract_all, extract_offences, h1, h2, h3, h4, h5, h6, h7, h8]
  · intro h
    simp [extract_all, extract_property_loss, findAllPrev_nil_of_search_none h]
  · intro h1 h2 h3
    simp [extract_all, extract_threats, h1, h2, h3]
  · intro h
    simp [extract_all, extract_witnesses, findAllPrev_nil_of_search_none h]
  · intro h
    simp [extract_all, h]
  · intro h
    simp only [extract_all] at h ⊢
    exact mls_nil _ h

/-- Witness for C1 on the empty input text. -/
theorem extract_all_defaults_witness :
    (extract_all []).complainant = ⟨none, none, none, none, none, none⟩ ∧
    (extract_all []).dateTime = [] ∧
    (extract_all []).place = "Not mentioned".data ∧
    (extract_all []).accused = [] ∧
    (extract_all []).vehicles = [] ∧
    (extract_all []).weaponsUsed = [] ∧
    (extract_all []).offences = [] ∧
    (extract_all []).propertyLoss = [] ∧
    (extract_all []).threats = [] ∧
    (extract_all []).witnesses = [] ∧
    (extract_all []).impact = [] ∧
    (extract_all []).legalMapping = [] := by
  obtain ⟨p1, p2, p3, p4, p5, p6, p7, p8, p9, p10, p11, p12⟩ :=
    extract_all_defaults []
  have h7 := p7 (by decide) (by decide) (by decide) (by decide)
    (by decide) (by decide) (by decide) (by decide)
  exact ⟨p1 (by decide) (by decide) (by decide) (by decide) (by decide)
      (by decide),
    p2 (by decide), p3 (by decide), p4 (by decide) (by decide),
    p5 (by decide), p6 (by decide) (by decide), h7, p8 (by decide),
    p9 (by decide) (by decide) (by decide), p10 (by decide),
    p11 (by decide), p12 h7⟩

/-- C2: the keys of the returned LegalMapping always form a sublist of
the fixed sequence `BNS 2023, SC/ST Act 1989, Arms Act 1959` (subset in
that fixed order), a code key is present exactly when its computed
section list is non-empty, and no empty section list surfaces. -/
theorem legal_mapping_keys (t : List Char) :
    ((extract_all t).legalMapping.map Prod.fst).Sublist
      ["BNS 2023", "SC/ST Act 1989", "Arms Act 1959"] ∧
    ("BNS 2023" ∈ (extract_all t).legalMapping.map Prod.fst ↔
      bnsSections (extract_all t).offences ≠ []) ∧
    ("SC/ST Act 1989" ∈ (extract_all t).legalMapping.map Prod.fst ↔
      scstSections (extract_all t).offences ≠ []) ∧
    ("Arms Act 1959" ∈ (extract_all t).legalMapping.map Prod.fst ↔
      armsSections (extract_all t).offences ≠ []) ∧
    (extract_all t).legalMapping.all (fun p => !p.2.isEmpty) = true := by
  cases hb : bnsSections (extract_offences t) with
  | _ =>
    cases hs : scstSections (extract_offences t) with
    | _ =>
      cases ha : armsSections (extract_offences t) with
      | _ =>
        simp [extract_all, map_legal_sections, hb, hs, ha]

/-- C7: the pipeline is deterministic and stateless — it is a pure
function of the input text, so equal inputs give equal records. -/
theorem extract_all_deterministic (t1 t2 : List Char) (h : t1 = t2) :
    extract_all t1 = extract_all t2 := by rw [h]

/-- Witness for C7. -/
theorem extract_all_deterministic_witness :
    extract_all "fir text".data = extract_all "fir text".data :=
  extract_all_deterministic _ _ rfl

/-- C8: `"Country-made pistol"` is emitted exactly when the text contains
`"pistol"` (case-insensitively), `"Stick"` exactly when it contains
`"stick"`, and when both are emitted the order is pistol-then-stick
regardless of where the keywords appear. -/
theorem extract_weapons_spec (t : List Char) :
    ("Country-made pistol" ∈ extract_weapons t ↔ containsCI t "pistol" = true) ∧
    ("Stick" ∈ extract_weapons t ↔ containsCI t "stick" = true) ∧
    (containsCI t "pistol" = true → containsCI t "stick" = true →
      extract_weapons t = ["Country-made pistol", "Stick"]) := by
  cases hp : containsCI t "pistol" <;> cases hs : containsCI t "stick" <;>
    simp [extract_weapons, hp, hs]

/-- Witness for C8 on a text containing the keyword `stick` before
`pistol`. -/
theorem extract_weapons_spec_witness :
    extract_weapons "a stick and a pistol".data =
      ["Country-made pistol", "Stick"] :=
  (extract_weapons_spec _).2.2 (by decide) (by decide)

/-- C9: the legal mapper reads only the Offences sequence — two inputs
with equal extracted Offences get identical LegalMappings, whatever the
rest of their text. -/
theorem legal_mapping_offences_only (t1 t2 : List Char)
    (h : extract_offences t1 = extract_offences t2) :
    (extract_all t1).legalMapping = (extract_all t2).legalMapping := by
  simp only [extract_all]
  exact mls_offences_only _ _ h

/-- Witness for C9: two different texts with the same single detected
offence get the same mapping. -/
theorem legal_mapping_offences_only_witness :
    (extract_all "a pistol here".data).legalMapping =
      (extract_all "FIRE there".data).legalMapping :=
  legal_mapping_offences_only _ _ (by decide)

theorem mem_joinSp {x : String} : ∀ {o : List String}, x ∈ o →
    ∃ a b, joinSp o = a ++ x.data ++ b := by
  intro o
  induction o with
  | nil => intro h; simp at h
  | cons y r ih =>
    intro h
    cases r with
    | nil =>
      have hx : x = y := by simpa using h
      exact ⟨[], [], by simp [joinSp, hx]⟩
    | cons z r2 =>
      rcases List.mem_cons.mp h with hx | hx
      · exact ⟨[], ' ' :: joinSp (z :: r2), by simp [joinSp, hx]⟩
      · obtain ⟨a, b, hab⟩ := ih hx
        exact ⟨y.data ++ ' ' :: a, b, by simp [joinSp, hab]⟩

theorem hasSubstr_inside {p x l : List Char} (h1 : hasSubstr p x = true)
    (h2 : ∃ a b, l = a ++ x ++ b) : hasSubstr p l = true := by
  obtain ⟨a, b, hab⟩ := h2
  obtain ⟨a2, b2, hab2⟩ := hasSubstr_exists h1
  rw [hab, hab2]
  have := hasSubstr_parts p (a ++ a2) (b2 ++ b)
  simpa [List.append_assoc] using this

/-- C4: a text containing both `pistol` and `fire` (case-insensitively)
yields the `Threat with firearm` offence, the `Country-made pistol`
weapon, and an `Arms Act 1959` entry carrying both the Sec. 25 and
Sec. 27 citations. -/
theorem pistol_fire_scenario (t : List Char)
    (hp : containsCI t "pistol" = true) (_hf : containsCI t "fire" = true) :
    "Threat with firearm" ∈ (extract_all t).offences ∧
    "Country-made pistol" ∈ (extract_all t).weaponsUsed ∧
    ("Arms Act 1959",
      ["Sec. 25 – Possession/use of illegal arms",
       "Sec. 27 – Use of firearm in commission of offence"]) ∈
      (extract_all t).legalMapping := by
  have htag : "Threat with firearm" ∈ extract_offences t := by
    simp [extract_offences, hp]
  have hjoin : hasSubstr "firearm".data (joinSp (extract_offences t)) = true := by
    refine hasSubstr_inside (x := "Threat with firearm".data) (by decide) ?_
    exact mem_joinSp htag
  have harms : armsSections (extract_offences t) =
      ["Sec. 25 – Possession/use of illegal arms",
       "Sec. 27 – Use of firearm in commission of offence"] := by
    simp [armsSections, hjoin]
  refine ⟨by simpa [extract_all] using htag,
    by simp [extract_all, extract_weapons, hp], ?_⟩
  simp [extract_all, map_legal_sections, harms]

/-- Witness for C4. -/
theorem pistol_fire_scenario_witness :
    "Threat with firearm" ∈ (extract_all "pistol fire".data).offences ∧
    "Country-made pistol" ∈ (extract_all "pistol fire".data).weaponsUsed ∧
    ("Arms Act 1959",
      ["Sec. 25 – Possession/use of illegal arms",
       "Sec. 27 – Use of firearm in commission of offence"]) ∈
      (extract_all "pistol fire".data).legalMapping :=
  pistol_fire_scenario _ (by decide) (by decide)

/-- C6: the date/time extractor is all-or-nothing: the empty string when
the combined pattern finds no match, the joined `"<date>, <time>"` spans
when it does, and in particular still the empty string when the date
portion alone matches somewhere but the combined pattern does not. -/
theorem extract_datetime_all_or_nothing (t : List Char) :
    (searchAux matchDTAt t = none → extract_datetime t = []) ∧
    (∀ d tm, searchAux matchDTAt t = some (d, tm) →
      extract_datetime t = d ++ ", ".data ++ tm) ∧
    (searchDateOnly t ≠ none → searchAux matchDTAt t = none →
      extract_datetime t = []) := by
  refine ⟨fun h => by simp [extract_datetime, h],
    fun d tm h => by simp [extract_datetime, h],
    fun _ h => by simp [extract_datetime, h]⟩

/-- Witness for C6: a text whose date portion matches but which has no
time phrase still gets the empty string. -/
theorem extract_datetime_all_or_nothing_witness :
    extract_datetime "on 5th March 2024 nothing else".data = [] :=
  (extract_datetime_all_or_nothing _).2.2 (by decide) (by decide)

theorem tw_take (p : Char → Bool) :
    ∀ l : List Char, l.takeWhile p ++ l.drop (l.takeWhile p).length = l := by
  intro l
  induction l with
  | nil => simp
  | cons x xs ih =>
    cases h : p x with
    | true =>
      simp only [List.takeWhile, h, List.length_cons, List.drop_succ_cons,
        List.cons_append, List.cons.injEq, true_and]
      exact ih
    | false => simp [List.takeWhile, h]

theorem drop_tw_head (p : Char → Bool) :
    ∀ (l : List Char) (d : Char),
      (l.drop (l.takeWhile p).length).head? = some d → p d = false := by
  intro l
  induction l with
  | nil => intro d h; simp at h
  | cons x xs ih =>
    intro d h
    cases hp : p x with
    | true =>
      rw [List.takeWhile] at h
      rw [hp] at h
      simp only [List.length_cons, List.drop_succ_cons] at h
      exact ih d h
    | false =>
      rw [List.takeWhile] at h
      rw [hp] at h
      simp only [List.length_nil, List.drop_zero, List.head?_cons,
        Option.some.injEq] at h
      rw [← h]
      exact hp

/-- C3 counterexample: on the text `"complainant Ab cd"` the code's Name
field is the maximal greedy run `"Ab cd"`, while the minimal non-greedy
run the claim describes is `"Ab"`; the two differ, so the Name field is
not the minimal run. -/
theorem complainant_name_not_minimal :
    (extract_complainant_info "complainant Ab cd".data).name =
      some "Ab cd".data ∧
    specNonGreedyName "complainant Ab cd".data = some "Ab".data ∧
    "Ab cd".data ≠ "Ab".data := by decide

/-- C3 (amended): the name sub-pattern captures a name-like run of
letters/spaces *greedily* and the first match wins: whenever the Name
field is produced, the text decomposes as some prefix, the cue word
(case-insensitively), at least one whitespace character, a letter
followed by a maximal non-empty letter-or-space run (the character after
the run, if any, is outside the class), and Name is that run stripped;
moreover no position further left admits a match. -/
theorem complainant_name_greedy (t v : List Char)
    (h : (extract_complainant_info t).name = some v) :
    ∃ pre cue ws c run rest,
      t = pre ++ cue ++ ws ++ (c :: run) ++ rest ∧
      lowerList cue = "complainant".data ∧
      ws ≠ [] ∧ (∀ x ∈ ws, isSp x = true) ∧
      isAlphaCh c = true ∧
      run ≠ [] ∧ (∀ x ∈ run, isAlphaSp x = true) ∧
      v = pyStrip (c :: run) ∧
      (∀ d, rest.head? = some d → isAlphaSp d = false) ∧
      (∀ u, SufOf u t → (cue ++ ws ++ (c :: run) ++ rest).length < u.length →
        matchCueName "complainant" u = none) := by
  simp only [extract_complainant_info] at h
  rw [Option.map_eq_some'] at h
  obtain ⟨cap, hsearch, hv⟩ := h
  obtain ⟨s, ⟨pre, hpre⟩, hm, hleft⟩ := searchAux_eq_some hsearch
  unfold matchCueName at hm
  cases hcs : ciStrip "complainant".data s with
  | none => rw [hcs] at hm; simp at hm
  | some r1 =>
    cases hws : (r1.takeWhile isSp).isEmpty with
    | true => rw [hcs] at hm; simp [hws] at hm
    | false =>
      cases hdrop : r1.drop (r1.takeWhile isSp).length with
      | nil => rw [hcs] at hm; simp [hws, hdrop] at hm
      | cons c r3 =>
        cases halpha : isAlphaCh c with
        | false => rw [hcs] at hm; simp [hws, hdrop, halpha] at hm
        | true =>
          cases hrun : (r3.takeWhile isAlphaSp).isEmpty with
          | true => rw [hcs] at hm; simp [hws, hdrop, halpha, hrun] at hm
          | false =>
            rw [hcs] at hm
            simp only [hws, hdrop, halpha, hrun, Bool.false_eq_true,
              if_false, if_true, Option.some.injEq] at hm
            obtain ⟨cue, hcue, hlow⟩ := ciStrip_exists hcs
            have hr1 : r1 = r1.takeWhile isSp ++
                (c :: (r3.takeWhile isAlphaSp ++
                  r3.drop (r3.takeWhile isAlphaSp).length)) := by
              conv_lhs => rw [← tw_take isSp r1, hdrop,
                ← tw_take isAlphaSp r3]
            refine ⟨pre, cue, r1.takeWhile isSp, c, r3.takeWhile isAlphaSp,
              r3.drop (r3.takeWhile isAlphaSp).length, ?_, hlow, ?_, ?_,
              halpha, ?_, ?_, ?_, ?_, ?_⟩
            · rw [← hpre]
              conv_lhs => rw [hcue, hr1]
              simp [List.append_assoc]
            · intro hempty
              rw [hempty] at hws
              simp at hws
            · exact fun x hx => all_tw isSp r1 x hx
            · intro hempty
              rw [hempty] at hrun
              simp at hrun
            · exact fun x hx => all_tw isAlphaSp r3 x hx
            · rw [← hv, ← hm]
            · exact fun d hd => drop_tw_head isAlphaSp r3 d hd
            · intro u hu hlen
              have hs : s = cue ++ r1.takeWhile isSp ++
                  (c :: r3.takeWhile isAlphaSp) ++
                  r3.drop (r3.takeWhile isAlphaSp).length := by
                conv_lhs => rw [hcue, hr1]
                simp [List.append_assoc]
              apply hleft u hu
              rw [hs]
              simpa [List.append_assoc] using hlen

/-- Witness for C3 (amended), instantiated on `"complainant Ab cd"`. -/
theorem complainant_name_greedy_witness :
    ∃ pre cue ws c run rest,
      "complainant Ab cd".data = pre ++ cue ++ ws ++ (c :: run) ++ rest ∧
      lowerList cue = "complainant".data ∧
      ws ≠ [] ∧ (∀ x ∈ ws, isSp x = true) ∧
      isAlphaCh c = true ∧
      run ≠ [] ∧ (∀ x ∈ run, isAlphaSp x = true) ∧
      "Ab cd".data = pyStrip (c :: run) ∧
      (∀ d, rest.head? = some d → isAlphaSp d = false) ∧
      (∀ u, SufOf u "complainant Ab cd".data →
        (cue ++ ws ++ (c :: run) ++ rest).length < u.length →
        matchCueName "complainant" u = none) :=
  complainant_name_greedy _ _ (by decide)

theorem tryCue_lower {cue : String} {s sp : List Char}
    (h : tryCue cue s = some sp) : lowerList sp = cue.data := by
  unfold tryCue at h
  split at h
  · next hci =>
    obtain ⟨r, hr⟩ := Option.isSome_iff_exists.mp (by simpa [ciTest] using hci)
    obtain ⟨q, hq, hlow⟩ := ciStrip_exists hr
    have hqlen : q.length = cue.length := by
      have h2 := congrArg List.length hlow
      simp only [lowerList, List.length_map] at h2
      exact h2
    have hsp : sp = q := by
      have h2 : sp = s.take cue.length := by
        simpa using h.symm
      rw [h2, hq, ← hqlen]
      exact List.take_left q r
    rw [hsp, hlow]
  · exact absurd h (by simp)

theorem cueHere_mem {s sp : List Char} (h : cueHere s = some sp) :
    lowerList sp ∈ ["medium build".data, "black shirt".data,
      "fair".data, "dark".data] := by
  unfold cueHere at h
  cases h1 : tryCue "medium build" s with
  | some x =>
    rw [h1] at h
    simp only [Option.some.injEq] at h
    rw [← h]
    simp [tryCue_lower h1]
  | none =>
    rw [h1] at h
    cases h2 : tryCue "black shirt" s with
    | some x =>
      rw [h2] at h
      simp only [Option.some.injEq] at h
      rw [← h]
      simp [tryCue_lower h2]
    | none =>
      rw [h2] at h
      cases h3 : tryCue "fair" s with
      | some x =>
        rw [h3] at h
        simp only [Option.some.injEq] at h
        rw [← h]
        simp [tryCue_lower h3]
      | none =>
        rw [h3] at h
        simp [tryCue_lower h]

theorem findCue_mem : ∀ {s sp : List Char}, findCue s = some sp →
    lowerList sp ∈ ["medium build".data, "black shirt".data,
      "fair".data, "dark".data] := by
  intro s
  induction s with
  | nil =>
    intro sp h
    exact cueHere_mem (by simpa [findCue] using h)
  | cons c r ih =>
    intro sp h
    cases hc : cueHere (c :: r) with
    | some x =>
      have h1 : findCue (c :: r) = some x := by simp [findCue, hc]
      rw [h1] at h
      obtain rfl : x = sp := by simpa using h
      exact cueHere_mem hc
    | none =>
      have h1 : findCue (c :: r) =
          if c = '\n' then none else findCue r := by
        simp [findCue, hc]
      rw [h1] at h
      split at h
      · exact absurd h (by simp)
      · exact ih h

theorem matchUnknownAt_mem {s sp : List Char}
    (h : matchUnknownAt s = some sp) :
    lowerList sp ∈ ["medium build".data, "black shirt".data,
      "fair".data, "dark".data] := by
  unfold matchUnknownAt at h
  cases hc : ciStrip "unknown person".data s with
  | none => rw [hc] at h; simp at h
  | some r =>
    rw [hc] at h
    exact findCue_mem h

/-- C5 counterexample: on `"unknown person DARK"` the sentinel's
Description is the original-case span `"DARK"`, which is neither an
element of the closed lower-case cue set nor the literal fallback. -/
theorem accused_sentinel_desc_not_in_set :
    (extract_accused_info "unknown person DARK".data).map
        (fun e => e.description) = [some "DARK".data] ∧
    "DARK".data ∉ ["medium build".data, "black shirt".data, "fair".data,
      "dark".data, "Unknown description".data] := by decide

/-- C5 (amended): whenever the token `unknown` occurs (case-insensitively)
the accused extractor appends exactly one sentinel entry, always last,
with Name `"Unknown"` and a Description that is either the literal
fallback `"Unknown description"` or a text span whose *lower-cased* form
is one of the closed cues `medium build`, `black shirt`, `fair`, `dark`;
when the token does not occur, no sentinel is appended. -/
theorem accused_sentinel_spec (t : List Char) :
    (hasUnknown t = true →
      ∃ d, extract_accused_info t = accusedBase t ++
          [{ name := "Unknown".data, age := none, relation := none,
             address := none, description := some d }] ∧
        (d = "Unknown description".data ∨
          lowerList d ∈ ["medium build".data, "black shirt".data,
            "fair".data, "dark".data])) ∧
    (hasUnknown t = false → extract_accused_info t = accusedBase t) := by
  constructor
  · intro h
    cases hu : searchAux matchUnknownAt t with
    | none =>
      exact ⟨"Unknown description".data,
        by simp [extract_accused_info, h, hu], Or.inl rfl⟩
    | some sp =>
      refine ⟨sp, by simp [extract_accused_info, h, hu], Or.inr ?_⟩
      obtain ⟨s, _, hm, _⟩ := searchAux_eq_some hu
      exact matchUnknownAt_mem hm
  · intro h
    simp [extract_accused_info, h]

/-- Witness for C5 (amended) on `"unknown attacker seen"`. -/
theorem accused_sentinel_spec_witness :
    ∃ d, extract_accused_info "unknown attacker seen".data =
        accusedBase "unknown attacker seen".data ++
          [{ name := "Unknown".data, age := none, relation := none,
             address := none, description := some d }] ∧
      (d = "Unknown description".data ∨
        lowerList d ∈ ["medium build".data, "black shirt".data,
          "fair".data, "dark".data]) :=
  (accused_sentinel_spec _).1 (by decide)

theorem lowerList_append (a b : List Char) :
    lowerList (a ++ b) = lowerList a ++ lowerList b := by
  simp [lowerList]

theorem hasSubstr_sufOf {p a b : List Char} (hsuf : SufOf a b)
    (h : hasSubstr p a = true) : hasSubstr p b = true := by
  obtain ⟨x, y, hxy⟩ := hasSubstr_exists h
  obtain ⟨pre, hpre⟩ := hsuf
  have : b = (pre ++ x) ++ p ++ y := by
    rw [← hpre, hxy]
    simp [List.append_assoc]
  rw [this]
  exact hasSubstr_parts p (pre ++ x) y

theorem lowerList_sufOf {a b : List Char} (h : SufOf a b) :
    SufOf (lowerList a) (lowerList b) := by
  obtain ⟨pre, hpre⟩ := h
  exact ⟨lowerList pre, by rw [← lowerList_append, hpre]⟩

theorem ciStrip_sufOf {p s r : List Char} (h : ciStrip p s = some r) :
    SufOf r s := by
  obtain ⟨q, hq, _⟩ := ciStrip_exists h
  exact ⟨q, hq.symm⟩

theorem ciStrip_substr {p s r : List Char} (h : ciStrip p s = some r) :
    hasSubstr p (lowerList s) = true := by
  obtain ⟨q, hq, hlow⟩ := ciStrip_exists h
  rw [hq, lowerList_append, ← hlow]
  exact hasSubstr_parts (lowerList q) [] (lowerList r)

theorem sufOf_dropWhile (p : Char → Bool) (l : List Char) :
    SufOf (l.dropWhile p) l :=
  ⟨l.takeWhile p, List.takeWhile_append_dropWhile p l⟩


theorem capAt_sufOf {cap : Char → Bool} {s x rest : List Char} {k : Nat}
    (h : capAt cap s k = some (x, rest)) : SufOf rest s := by
  unfold capAt at h
  split at h
  · exact absurd h (by simp)
  · rename_i d r heq
    split at h
    · simp only [Option.some.injEq, Prod.mk.injEq] at h
      refine sufOf_trans ?_ (sufOf_drop s k)
      rw [heq, ← h.2]
      exact sufOf_trans (sufOf_drop r _) (sufOf_tail d r)
    · exact absurd h (by simp)

theorem backCap_sufOf {cap : Char → Bool} {s x rest : List Char}
    {min : Nat} : ∀ {k : Nat},
    backCap cap s min k = some (x, rest) → SufOf rest s := by
  intro k
  induction k with
  | zero =>
    intro h
    unfold backCap at h
    split at h
    · exact capAt_sufOf h
    · simp at h
  | succ k ih =>
    intro h
    unfold backCap at h
    split at h
    · simp at h
    · cases hc : capAt cap s (k + 1) with
      | some y =>
        rw [hc] at h
        simp only [Option.some.injEq] at h
        cases y with
        | mk a b => cases h; exact capAt_sufOf hc
      | none =>
        rw [hc] at h
        exact ih h

theorem trySo_spec {s cap rest : List Char}
    (h : trySo s = some (cap, rest)) :
    hasSubstr "s/o".data (lowerList s) = true ∧ SufOf rest s := by
  unfold trySo at h
  split at h
  · exact absurd h (by simp)
  · rename_i r hc
    exact ⟨ciStrip_substr hc,
      sufOf_trans (backCap_sufOf h) (ciStrip_sufOf hc)⟩

theorem tryResident_spec {s cap rest : List Char}
    (h : tryResident s = some (cap, rest)) :
    hasSubstr "resident".data (lowerList s) = true ∧ SufOf rest s := by
  unfold tryResident at h
  split at h
  · exact absurd h (by simp)
  · rename_i r1 hc
    split at h
    · exact absurd h (by simp)
    · rename_i r2 hof
      refine ⟨ciStrip_substr hc, ?_⟩
      have h1 : SufOf rest r2 := backCap_sufOf h
      have h2 : SufOf r2 (r1.drop (r1.takeWhile isSp).length) :=
        ciStrip_sufOf hof
      have h3 : SufOf (r1.drop (r1.takeWhile isSp).length) r1 :=
        sufOf_drop r1 _
      exact sufOf_trans h1 (sufOf_trans h2
        (sufOf_trans h3 (ciStrip_sufOf hc)))

theorem findAllStep_mem {α : Type} {m : List Char → Option (α × Nat)}
    {a : α} : ∀ {t : List Char} {skip : Nat},
    a ∈ findAllStep m skip t → ∃ s n, SufOf s t ∧ m s = some (a, n) := by
  intro t
  induction t with
  | nil =>
    intro skip h
    cases skip with
    | zero =>
      unfold findAllStep at h
      cases hm : m [] with
      | none => rw [hm] at h; simp at h
      | some p =>
        rw [hm] at h
        simp only [List.mem_singleton] at h
        exact ⟨[], p.2, sufOf_refl [], by rw [hm, h]⟩
    | succ k =>
      unfold findAllStep at h
      simp at h
  | cons c s ih =>
    intro skip h
    cases skip with
    | zero =>
      unfold findAllStep at h
      cases hm : m (c :: s) with
      | some p =>
        rw [hm] at h
        rcases List.mem_cons.mp h with hx | hx
        · exact ⟨c :: s, p.2, sufOf_refl _, by rw [hm, hx]⟩
        · obtain ⟨s', n, hsuf, hm'⟩ := ih hx
          exact ⟨s', n, sufOf_trans hsuf (sufOf_tail c s), hm'⟩
      | none =>
        rw [hm] at h
        obtain ⟨s', n, hsuf, hm'⟩ := ih h
        exact ⟨s', n, sufOf_trans hsuf (sufOf_tail c s), hm'⟩
    | succ k =>
      unfold findAllStep at h
      obtain ⟨s', n, hsuf, hm'⟩ := ih h
      exact ⟨s', n, sufOf_trans hsuf (sufOf_tail c s), hm'⟩

theorem matchAccusedAt_shape {s : List Char} {e : AccusedEntry} {n : Nat}
    (h : matchAccusedAt s = some (e, n)) :
    e.age.isSome = true ∧ e.description = none ∧
    (e.relation.isSome = true →
      hasSubstr "s/o".data (lowerList s) = true) ∧
    (e.address.isSome = true →
      hasSubstr "resident".data (lowerList s) = true) := by
  unfold matchAccusedAt at h
  split at h
  · exact absurd h (by simp)
  · rename_i c r
    split at h
    case isFalse => exact absurd h (by simp)
    case isTrue halpha =>
      dsimp only at h
      split at h
      case isTrue => exact absurd h (by simp)
      case isFalse hrun =>
        split at h
        · exact absurd h (by simp)
        · rename_i d r2 hdrop
          split at h
          case isFalse => exact absurd h (by simp)
          case isTrue hd =>
            split at h
            · exact absurd h (by simp)
            · rename_i r4 haged
              split at h
              · exact absurd h (by simp)
              · rename_i r6 habout
                split at h
                case isTrue => exact absurd h (by simp)
                case isFalse hds =>
                  simp only [Option.some.injEq, Prod.mk.injEq] at h
                  obtain ⟨he, -⟩ := h
                  subst he
                  have hsuf8 : SufOf ((r6.dropWhile isSp).drop
                      ((r6.dropWhile isSp).takeWhile isDigitCh).length)
                      (c :: r) := by
                    refine sufOf_trans (sufOf_drop _ _) ?_
                    refine sufOf_trans (sufOf_dropWhile isSp r6) ?_
                    refine sufOf_trans (ciStrip_sufOf habout) ?_
                    refine sufOf_trans (sufOf_dropWhile isSp r4) ?_
                    refine sufOf_trans (ciStrip_sufOf haged) ?_
                    refine sufOf_trans (sufOf_dropWhile isSp r2) ?_
                    refine sufOf_trans (sufOf_tail d r2) ?_
                    rw [← hdrop]
                    exact sufOf_trans (sufOf_drop r _) (sufOf_tail c r)
                  refine ⟨by simp, by simp, ?_, ?_⟩
                  · intro hx
                    cases hso : trySo ((r6.dropWhile isSp).drop
                        ((r6.dropWhile isSp).takeWhile isDigitCh).length) with
                    | none => rw [hso] at hx; simp at hx
                    | some p1 =>
                      obtain ⟨cap1, rest1⟩ := p1
                      exact hasSubstr_sufOf (lowerList_sufOf hsuf8)
                        (trySo_spec hso).1
                  · intro hx
                    cases hso : trySo ((r6.dropWhile isSp).drop
                        ((r6.dropWhile isSp).takeWhile isDigitCh).length) with
                    | some p1 =>
                      obtain ⟨cap1, rest1⟩ := p1
                      rw [hso] at hx
                      dsimp only at hx
                      cases hres : tryResident rest1 with
                      | none => rw [hres] at hx; simp at hx
                      | some p2 =>
                        obtain ⟨cap2, rest2⟩ := p2
                        exact hasSubstr_sufOf (lowerList_sufOf
                            (sufOf_trans (trySo_spec hso).2 hsuf8))
                          (tryResident_spec hres).1
                    | none =>
                      rw [hso] at hx
                      dsimp only at hx
                      cases hres : tryResident ((r6.dropWhile isSp).drop
                          ((r6.dropWhile isSp).takeWhile
                            isDigitCh).length) with
                      | none => rw [hres] at hx; simp at hx
                      | some p2 =>
                        obtain ⟨cap2, rest2⟩ := p2
                        exact hasSubstr_sufOf (lowerList_sufOf hsuf8)
                          (tryResident_spec hres).1

/-- C10 counterexample: on `"Aa, aged about 1S/o Bb"`, where `S/o`
directly abuts the age digits, the repeated-match loop *does* populate
the Relation key of the produced entry. -/
theorem accused_relation_can_be_populated :
    (accusedBase "Aa, aged about 1S/o Bb".data).map (fun e => e.relation) =
      [some "S/o Bb".data] ∧
    some "S/o Bb".data ≠ (none : Option (List Char)) := by decide

/-- C10 (amended): every entry produced by the accused extractor's
repeated-match loop carries Name and Age (age always present) and never
a Description; the optional Relation and Address keys *can* be populated
— this happens exactly when the optional `S/o`/`resident of` sub-pattern
matches immediately after the age digits, the lazy gaps matching empty —
and in particular an entry's Relation (resp. Address) is populated only
if the text contains `s/o` (resp. `resident`) case-insensitively. -/
theorem accused_entries_shape (t : List Char) (e : AccusedEntry)
    (he : e ∈ accusedBase t) :
    e.age.isSome = true ∧ e.description = none ∧
    (e.relation.isSome = true → containsCI t "s/o" = true) ∧
    (e.address.isSome = true → containsCI t "resident" = true) := by
  obtain ⟨s, n, hsuf, hm⟩ :=
    findAllStep_mem (by simpa [accusedBase, findAllAux] using he)
  obtain ⟨h1, h2, h3, h4⟩ := matchAccusedAt_shape hm
  refine ⟨h1, h2, fun hx => ?_, fun hx => ?_⟩
  · exact hasSubstr_sufOf (lowerList_sufOf hsuf) (h3 hx)
  · exact hasSubstr_sufOf (lowerList_sufOf hsuf) (h4 hx)

/-- Witness for C10 (amended) on `"Xy, aged about 2S/o Cd"`, whose single
entry has a populated Relation. -/
theorem accused_entries_shape_witness :
    ({ name := "Xy".data, age := some 2, relation := some "S/o Cd".data,
       address := none, description := none } : AccusedEntry).age.isSome
        = true ∧
    ({ name := "Xy".data, age := some 2, relation := some "S/o Cd".data,
       address := none, description := none } : AccusedEntry).description
        = none ∧
    (({ name := "Xy".data, age := some 2, relation := some "S/o Cd".data,
        address := none, description := none } : AccusedEntry).relation.isSome
        = true →
      containsCI "Xy, aged about 2S/o Cd".data "s/o" = true) ∧
    (({ name := "Xy".data, age := some 2, relation := some "S/o Cd".data,
        address := none, description := none } : AccusedEntry).address.isSome
        = true →
      containsCI "Xy, aged about 2S/o Cd".data "resident" = true) :=
  accused_entries_shape "Xy, aged about 2S/o Cd".data
    { name := "Xy".data, age := some 2, relation := some "S/o Cd".data,
      address := none, description := none } (by decide)
